import Mathlib

/-
Verification of the option_momentum repository (src/indicators.py, src/app.py,
src/telegram_alerts.py) against its natural-language specification.

Numeric model: pandas float64 values are modelled as exact rationals (ℚ).
A cell that pandas would hold as NaN (incomplete lookback window, 0/0) is
modelled as `none : Option ℚ`.  Pandas/NumPy comparison semantics are kept:
any comparison involving NaN yields False, `x / 0 = inf` for `x > 0` (so
`100 - 100/(1 + inf) = 100`), and `0 / 0 = NaN`.
-/

namespace OptionMomentum

/-- One OHLCV bar.  `ts` stands for the DataFrame index label of the row
(`str(last.name)` in app.py); it is only carried into the signal report. -/
structure Candle where
  open_ : ℚ
  high : ℚ
  low : ℚ
  close : ℚ
  volume : ℚ
  ts : ℕ
deriving DecidableEq, Repr

def dummyCandle : Candle := ⟨0, 0, 0, 0, 0, 0⟩

/-- NumPy semantics of `a > b` on possibly-NaN floats: any comparison with
NaN is False. -/
def gtO : Option ℚ → Option ℚ → Bool
  | some a, some b => decide (b < a)
  | _, _ => false

/-- NumPy semantics of `a <= b` on possibly-NaN floats: False when either
side is NaN. -/
def leO : Option ℚ → Option ℚ → Bool
  | some a, some b => decide (a ≤ b)
  | _, _ => false

/-- Scaling a possibly-NaN float by a constant (`baseline * multiplier`):
NaN stays NaN. -/
def omulC (x : Option ℚ) (c : ℚ) : Option ℚ := x.map (fun v => v * c)

/-- `a > b` as a proposition on possibly-NaN cells: both sides defined and
strictly ordered. -/
def OGt (x y : Option ℚ) : Prop := ∃ a b, x = some a ∧ y = some b ∧ b < a

/-- `a ≤ b` as a proposition on possibly-NaN cells. -/
def OLe (x y : Option ℚ) : Prop := ∃ a b, x = some a ∧ y = some b ∧ a ≤ b

theorem gtO_iff (x y : Option ℚ) : gtO x y = true ↔ OGt x y := by
  cases x <;> cases y <;> simp [gtO, OGt]

theorem leO_iff (x y : Option ℚ) : leO x y = true ↔ OLe x y := by
  cases x <;> cases y <;> simp [leO, OLe]

/-- Tail of `series.ewm(..., adjust=False).mean()`: each step
`y = (1-a)*prev + a*x`. -/
def ewmGo (a : ℚ) (prev : ℚ) : List ℚ → List ℚ
  | [] => []
  | x :: xs => ((1 - a) * prev + a * x) :: ewmGo a ((1 - a) * prev + a * x) xs

/-- `series.ewm(alpha=a, adjust=False).mean()` on a NaN-free series:
seeded with the first raw value. -/
def ewm (a : ℚ) : List ℚ → List ℚ
  | [] => []
  | x :: xs => x :: ewmGo a x xs

/-- indicators.ema: `series.ewm(span=length, adjust=False).mean()`,
i.e. `alpha = 2/(length+1)`. -/
def ema (xs : List ℚ) (length : ℕ) : List ℚ :=
  ewm (2 / ((length : ℚ) + 1)) xs

/-- `series.diff()` without its leading NaN: adjacent differences. -/
def diffs (xs : List ℚ) : List ℚ :=
  List.zipWith (fun a b => b - a) xs xs.tail

/-- One cell of `100 - 100/(1+rs)` with `rs = u/d` under NumPy float
division: `d = 0 ∧ u = 0` gives NaN, `d = 0 ∧ u > 0` gives `rs = inf`
hence rsi `= 100`, otherwise the exact rational value. -/
def rsiPoint (u d : ℚ) : Option ℚ :=
  if d = 0 then (if u = 0 then none else some 100)
  else some (100 - 100 / (1 + u / d))

/-- indicators.rsi: Wilder-style smoothing with `alpha = 1/length`,
`up = delta.clip(lower=0)`, `down = -delta.clip(upper=0)`.  The leading
`none` is the NaN coming from `series.diff()` at index 0; the smoothed
series are seeded at index 1 with the raw first delta (pandas ewm skips
the leading NaN). -/
def rsi (xs : List ℚ) (length : ℕ) : List (Option ℚ) :=
  match xs with
  | [] => []
  | _ :: _ =>
    let d := diffs xs
    let up := d.map (fun x => max x 0)
    let down := d.map (fun x => max (-x) 0)
    none :: List.zipWith rsiPoint (ewm (1 / (length : ℚ)) up) (ewm (1 / (length : ℚ)) down)

/-- True range per bar: `max(high-low, |high-prev_close|, |low-prev_close|)`;
the first bar has no previous close, and the rowwise `max` skips the two NaN
candidates, leaving `high - low`. -/
def trGo (prev : Candle) : List Candle → List ℚ
  | [] => []
  | c :: cs =>
      max (max (c.high - c.low) |c.high - prev.close|) |c.low - prev.close| :: trGo c cs

def trList : List Candle → List ℚ
  | [] => []
  | c :: cs => (c.high - c.low) :: trGo c cs

/-- indicators.atr: true range smoothed with `ewm(alpha=1/length)`. -/
def atr (df : List Candle) (length : ℕ) : List ℚ :=
  ewm (1 / (length : ℚ)) (trList df)

/-- `series.rolling(w).mean()`: defined only once the trailing window of
`w` values is complete. -/
def rollingMean (w : ℕ) (xs : List ℚ) : List (Option ℚ) :=
  (List.range xs.length).map (fun i =>
    if w ≤ i + 1 then some (((xs.drop (i + 1 - w)).take w).sum / (w : ℚ)) else none)

/-- One row of the Indicator Frame produced by indicators.compute_all.
Fields that pandas can hold as NaN are `Option ℚ`; the two spike flags are
boolean columns (a comparison against NaN yields False, never NaN). -/
structure IndRow where
  candle : Candle
  ema9 : Option ℚ
  ema21 : Option ℚ
  rsi5 : Option ℚ
  atr14 : Option ℚ
  atr14_ma : Option ℚ
  atr_spike : Bool
  vol_spike : Bool
deriving DecidableEq, Repr

def dummyRow : IndRow := ⟨dummyCandle, none, none, none, none, none, false, false⟩

/-- Row `i` of the Indicator Frame: the source's column assignments in
indicators.compute_all, read back at one index. -/
def mkRow (df : List Candle) (i : ℕ) : IndRow :=
  let closes := df.map Candle.close
  let a14 := atr df 14
  { candle := df.getD i dummyCandle
  , ema9 := (ema closes 9).get? i
  , ema21 := (ema closes 21).get? i
  , rsi5 := (rsi closes 5).getD i none
  , atr14 := a14.get? i
  , atr14_ma := (rollingMean 14 a14).getD i none
  , atr_spike := gtO (a14.get? i) (omulC ((rollingMean 14 a14).getD i none) (6 / 5))
  , vol_spike := gtO (some ((df.getD i dummyCandle).volume))
      (omulC ((rollingMean 10 (df.map Candle.volume)).getD i none) (3 / 2)) }

/-- indicators.compute_all: the Indicator Frame, one row per input candle. -/
def compute_all (df : List Candle) : List IndRow :=
  (List.range df.length).map (mkRow df)

/-- The Signal Report dict built at the end of detect_momentum_signal. -/
structure Report where
  signal : Bool
  ema_cross : Bool
  rsi5 : Option ℚ
  vol_spike : Bool
  atr_spike : Bool
  close : ℚ
  time : ℕ
deriving DecidableEq, Repr

def lastRow (rows : List IndRow) : IndRow := rows.getD (rows.length - 1) dummyRow

def prevRow (rows : List IndRow) : IndRow := rows.getD (rows.length - 2) dummyRow

/-- `last['ema9'] > last['ema21'] and prev['ema9'] <= prev['ema21']`. -/
def emaCrossB (last prev : IndRow) : Bool :=
  gtO last.ema9 last.ema21 && leO prev.ema9 prev.ema21

/-- `last['rsi5'] > 55`. -/
def rsiBurstB (last : IndRow) : Bool := gtO last.rsi5 (some 55)

/-- `last['close'] > last['ema9'] and last['close'] > last['ema21']`. -/
def priceAboveB (last : IndRow) : Bool :=
  gtO (some last.candle.close) last.ema9 && gtO (some last.candle.close) last.ema21

/-- `(ema_cross or price_above_emas) and rsi_burst and vol_spike and atr_spike`. -/
def signalB (last prev : IndRow) : Bool :=
  (emaCrossB last prev || priceAboveB last) && rsiBurstB last
    && last.vol_spike && last.atr_spike

/-- The read-and-evaluate part of detect_momentum_signal, on an already
computed Indicator Frame: reads the last two rows and builds the report.
Total — an undefined cell can only make a predicate False. -/
def detectRows (rows : List IndRow) : Report :=
  let last := lastRow rows
  let prev := prevRow rows
  { signal := signalB last prev
  , ema_cross := emaCrossB last prev
  , rsi5 := last.rsi5
  , vol_spike := last.vol_spike
  , atr_spike := last.atr_spike
  , close := last.candle.close
  , time := last.candle.ts }

/-- app.detect_momentum_signal: `{}` (here `none`) when the input frame is
missing or shorter than 30 rows, otherwise the report on the last bar of
the computed Indicator Frame. -/
def detect_momentum_signal (df? : Option (List Candle)) : Option Report :=
  match df? with
  | none => none
  | some df => if df.length < 30 then none else some (detectRows (compute_all df))

/-
Alert-dedup storage (app.py ALERTS_FILE).  A stored value is either an
ISO-parseable UTC timestamp (modelled as seconds, `iso t`) or a string that
`datetime.fromisoformat` rejects (`bad s`).  The file as a whole is absent,
not valid JSON, or a JSON object (an association list with unique keys,
insertion-ordered like a Python dict).
-/

inductive TsValue where
  | iso (t : ℚ)
  | bad (s : String)
deriving DecidableEq, Repr

inductive FileState where
  | absent
  | invalidJson
  | valid (entries : List (String × TsValue))
deriving DecidableEq, Repr

/-- Python dict lookup `data[symbol]` / `symbol in data`. -/
def lookupEntry : List (String × TsValue) → String → Option TsValue
  | [], _ => none
  | (k, v) :: rest, s => if k = s then some v else lookupEntry rest s

/-- Python dict assignment `data[symbol] = ts`: overwrite in place or append. -/
def setEntry : List (String × TsValue) → String → TsValue → List (String × TsValue)
  | [], s, v => [(s, v)]
  | (k, w) :: rest, s, v =>
      if k = s then (k, v) :: rest else (k, w) :: setEntry rest s v

/-- The read at the top of app.persist_alert: a missing file or a JSON parse
error both leave `data = {}`. -/
def readAll : FileState → List (String × TsValue)
  | .absent => []
  | .invalidJson => []
  | .valid es => es

/-- app.persist_alert: read everything, overwrite the symbol's timestamp,
rewrite the whole file. -/
def persist_alert (f : FileState) (symbol : String) (ts : ℚ) : FileState :=
  .valid (setEntry (readAll f) symbol (.iso ts))

/-- app.was_alert_sent_recent.  A missing file or a JSON parse failure
returns False; an absent symbol returns False; a parseable timestamp is
compared with `diff.total_seconds() <= minutes * 60`.  A stored value that
`datetime.fromisoformat` cannot parse raises (the call sits outside the
`try`), modelled as `Except.error`. -/
def was_alert_sent_recent (f : FileState) (now : ℚ) (symbol : String) (minutes : ℚ) :
    Except String Bool :=
  match f with
  | .absent => .ok false
  | .invalidJson => .ok false
  | .valid es =>
    match lookupEntry es symbol with
    | none => .ok false
    | some (.iso t) => .ok (decide (now - t ≤ minutes * 60))
    | some (.bad s) => .error ("invalid isoformat string: " ++ s)

/-
telegram_alerts.send_telegram_message.  The outcome of the one
`requests.post` is an oracle: an HTTP status code, or a transport
exception (caught inside the function).  Missing credentials (`None` or
the empty string, both falsy in Python) raise a ValueError before any
delivery attempt, modelled as `Except.error`.
-/

inductive HttpOutcome where
  | status (code : ℕ)
  | exn (msg : String)
deriving DecidableEq, Repr

def send_telegram_message (bot_token chat_id : Option String) (text : String)
    (world : HttpOutcome) : Except String Bool :=
  if bot_token.getD "" = "" ∨ chat_id.getD "" = "" then
    .error "Provide bot_token and chat_id in config."
  else
    .ok (match world with
      | .status code => code == 200
      | .exn _ => false)

/-
app.run_check.  Per symbol, the external world supplies the candle fetch
outcome and the telegram delivery outcome; `now` and the cooldown are fixed
for the cycle.  A delivery call either returns a Bool or raises (the raise
is caught in run_check, leaving `sent = False`).
-/

inductive SendResult where
  | returned (b : Bool)
  | raised (msg : String)
deriving DecidableEq, Repr

structure Env where
  fetch : String → Except String (List Candle)
  send : String → SendResult
  now : ℚ
  cooldown : ℚ

/-- One element of the `results` list: either the error dict built when
fetch_candles raises, or the signal dict with the symbol added (`none`
when detect returned the empty dict). -/
inductive Entry where
  | err (symbol msg : String)
  | sig (symbol : String) (r : Option Report)
deriving DecidableEq, Repr

def entrySym : Entry → String
  | .err s _ => s
  | .sig s _ => s

/-- The body of run_check's per-symbol loop.  Only fetch_candles sits in a
`try`; an exception raised by was_alert_sent_recent propagates out
(`Except.error` aborts the whole cycle).  The dedup record is written only
when send_telegram_message returned True. -/
def processSymbol (env : Env) (f : FileState) (symbol : String) :
    Except String (Entry × FileState) :=
  match env.fetch symbol with
  | .error e => .ok (.err symbol e, f)
  | .ok df =>
    let r? := detect_momentum_signal (some df)
    match r? with
    | none => .ok (.sig symbol none, f)
    | some r =>
      if r.signal then
        match was_alert_sent_recent f env.now symbol env.cooldown with
        | .error e => .error e
        | .ok true => .ok (.sig symbol (some r), f)
        | .ok false =>
          let sent := match env.send symbol with
            | .returned b => b
            | .raised _ => false
          .ok (.sig symbol (some r),
               if sent then persist_alert f symbol env.now else f)
      else .ok (.sig symbol (some r), f)

/-- app.run_check: fold the per-symbol body over the watch list, threading
the alert file and accumulating one entry per symbol. -/
def run_check (env : Env) : List String → FileState → Except String (List Entry × FileState)
  | [], f => .ok ([], f)
  | s :: ss, f =>
    match processSymbol env f s with
    | .error e => .error e
    | .ok (e, f2) =>
      match run_check env ss f2 with
      | .error e2 => .error e2
      | .ok (es, f3) => .ok (e :: es, f3)

/-
Heap model for the copy/mutation behaviour of compute_all (claim about the
caller's DataFrame).  A pandas DataFrame lives at a heap reference; column
assignment `df['x'] = ...` mutates the frame at that reference, and
`df.copy()` allocates a fresh reference.  compute_all first copies and then
performs its seven column writes through the new reference only.
-/

/-- The value of one appended indicator column. -/
inductive ColData where
  | nums (xs : List (Option ℚ))
  | flags (xs : List Bool)
deriving DecidableEq, Repr

/-- A DataFrame object: its OHLCV base plus any indicator columns added. -/
structure PFrame where
  base : List Candle
  cols : List (String × ColData)
deriving DecidableEq, Repr

def dummyPF : PFrame := ⟨[], []⟩

def setColAssoc : List (String × ColData) → String → ColData → List (String × ColData)
  | [], n, v => [(n, v)]
  | (k, w) :: rest, n, v =>
      if k = n then (k, v) :: rest else (k, w) :: setColAssoc rest n v

/-- `df['name'] = col` on the frame stored at reference `r`. -/
def writeCol (h : List PFrame) (r : ℕ) (name : String) (c : ColData) : List PFrame :=
  h.set r { h.getD r dummyPF with cols := setColAssoc (h.getD r dummyPF).cols name c }

/-- The spike columns of compute_all as whole-column values (equal to the
values the source reads back from the frame it is building). -/
def atrSpikeCol (df : List Candle) : List Bool :=
  (List.range df.length).map (fun i =>
    gtO ((atr df 14).get? i) (omulC ((rollingMean 14 (atr df 14)).getD i none) (6 / 5)))

def volSpikeCol (df : List Candle) : List Bool :=
  (List.range df.length).map (fun i =>
    gtO (some ((df.getD i dummyCandle).volume))
      (omulC ((rollingMean 10 (df.map Candle.volume)).getD i none) (3 / 2)))

/-- indicators.compute_all at the heap level: `df = df.copy()` allocates at
the end of the heap, then the seven column assignments all go through the
new reference.  Returns the updated heap and the reference handed back to
the caller. -/
def compute_all_heap (h : List PFrame) (r : ℕ) : List PFrame × ℕ :=
  let f := h.getD r dummyPF
  let r2 := h.length
  let h1 := h ++ [f]
  let closes := f.base.map Candle.close
  let h2 := writeCol h1 r2 "ema9" (.nums ((ema closes 9).map some))
  let h3 := writeCol h2 r2 "ema21" (.nums ((ema closes 21).map some))
  let h4 := writeCol h3 r2 "rsi5" (.nums (rsi closes 5))
  let h5 := writeCol h4 r2 "atr14" (.nums ((atr f.base 14).map some))
  let h6 := writeCol h5 r2 "atr14_ma" (.nums (rollingMean 14 (atr f.base 14)))
  let h7 := writeCol h6 r2 "atr_spike" (.flags (atrSpikeCol f.base))
  let h8 := writeCol h7 r2 "vol_spike" (.flags (volSpikeCol f.base))
  (h8, r2)

/-- app.detect_momentum_signal at the heap level: on a missing or short
frame it returns `{}` without touching the heap; otherwise it rebinds its
local `df` to the compute_all copy and only reads from it. -/
def detect_heap (h : List PFrame) (df? : Option ℕ) : List PFrame × Option Report :=
  match df? with
  | none => (h, none)
  | some r =>
    if (h.getD r dummyPF).base.length < 30 then (h, none)
    else
      let p := compute_all_heap h r
      (p.1, some (detectRows (compute_all (h.getD r dummyPF).base)))

/- ------------------------------------------------------------------ -/
/- Helper lemmas                                                      -/
/- ------------------------------------------------------------------ -/

theorem gtO_none_left (y : Option ℚ) : gtO none y = false := by cases y <;> rfl

theorem gtO_none_right (x : Option ℚ) : gtO x none = false := by cases x <;> rfl

theorem leO_none_left (y : Option ℚ) : leO none y = false := by cases y <;> rfl

theorem leO_none_right (x : Option ℚ) : leO x none = false := by cases x <;> rfl

theorem compute_all_getD (df : List Candle) (i : ℕ) (h : i < df.length) :
    (compute_all df).getD i dummyRow = mkRow df i := by
  simp [compute_all, List.getD_eq_getElem?_getD, List.getElem?_map,
    List.getElem?_range, h]

/-- A 30-bar constant series: enough rows for the detector, no breakout. -/
def constDf30 : List Candle := List.replicate 30 ⟨100, 100, 100, 100, 10, 0⟩

/-- 29 flat bars followed by one breakout bar (close and high jump to 120,
volume 10×): every sub-condition of the composite signal fires. -/
def sigDf : List Candle :=
  List.replicate 29 ⟨100, 100, 100, 100, 10, 0⟩ ++ [⟨100, 120, 100, 120, 100, 29⟩]

/-- The report the detector produces on `sigDf`. -/
def sigReport : Report := ⟨true, true, some 100, true, true, 120, 29⟩

set_option maxRecDepth 100000

theorem detect_sigDf : detect_momentum_signal (some sigDf) = some sigReport := by
  with_unfolding_all decide

/- ------------------------------------------------------------------ -/
/- Claims                                                             -/
/- ------------------------------------------------------------------ -/

/-- Claim C1: for every candle frame with at least 30 rows, the report
returned by detect_momentum_signal has `signal = true` iff, on the last row
of the computed indicator frame, ((ema9 > ema21 on the last row and
ema9 ≤ ema21 on the previous row) or (close > ema9 and close > ema21)) and
rsi5 > 55 and vol_spike and atr_spike all hold. -/
theorem detect_signal_iff (df : List Candle) (h : 30 ≤ df.length) :
    ∃ r, detect_momentum_signal (some df) = some r ∧
      (r.signal = true ↔
        (((OGt (lastRow (compute_all df)).ema9 (lastRow (compute_all df)).ema21 ∧
           OLe (prevRow (compute_all df)).ema9 (prevRow (compute_all df)).ema21) ∨
          (OGt (some (lastRow (compute_all df)).candle.close)
               (lastRow (compute_all df)).ema9 ∧
           OGt (some (lastRow (compute_all df)).candle.close)
               (lastRow (compute_all df)).ema21)) ∧
         OGt (lastRow (compute_all df)).rsi5 (some 55) ∧
         (lastRow (compute_all df)).vol_spike = true ∧
         (lastRow (compute_all df)).atr_spike = true)) := by
  refine ⟨detectRows (compute_all df), ?_, ?_⟩
  · simp [detect_momentum_signal, Nat.not_lt.mpr h]
  · simp [detectRows, signalB, emaCrossB, rsiBurstB, priceAboveB,
      Bool.and_eq_true, Bool.or_eq_true, gtO_iff, leO_iff, and_assoc]

/-- Witness for C1 at a concrete 30-bar input. -/
theorem detect_signal_iff_inst :
    ∃ r, detect_momentum_signal (some constDf30) = some r := by
  obtain ⟨r, hr, -⟩ := detect_signal_iff constDf30 (by decide)
  exact ⟨r, hr⟩

/-- Claim C2: a missing series or one of fewer than 30 rows yields the
empty result without raising; a series of at least 30 rows yields a report
populated from the last bar of the indicator frame, unconditionally (also
when `signal` is false). -/
theorem detect_report_shape :
    detect_momentum_signal none = none ∧
    (∀ df : List Candle, df.length < 30 → detect_momentum_signal (some df) = none) ∧
    (∀ df : List Candle, 30 ≤ df.length →
      ∃ r, detect_momentum_signal (some df) = some r ∧
        r.close = (lastRow (compute_all df)).candle.close ∧
        r.time = (lastRow (compute_all df)).candle.ts ∧
        r.rsi5 = (lastRow (compute_all df)).rsi5 ∧
        r.vol_spike = (lastRow (compute_all df)).vol_spike ∧
        r.atr_spike = (lastRow (compute_all df)).atr_spike ∧
        r.ema_cross = emaCrossB (lastRow (compute_all df)) (prevRow (compute_all df)) ∧
        r.signal = signalB (lastRow (compute_all df)) (prevRow (compute_all df))) := by
  refine ⟨rfl, ?_, ?_⟩
  · intro df h; simp [detect_momentum_signal, h]
  · intro df h
    refine ⟨detectRows (compute_all df), ?_, rfl, rfl, rfl, rfl, rfl, rfl, rfl⟩
    simp [detect_momentum_signal, Nat.not_lt.mpr h]

/-- Witness for C2: the empty series gives the empty result; the 30-bar
constant series (whose `signal` is false) still gives a populated report. -/
theorem detect_report_shape_inst :
    detect_momentum_signal (some []) = none ∧
    ∃ r, detect_momentum_signal (some constDf30) = some r := by
  refine ⟨detect_report_shape.2.1 [] (by decide), ?_⟩
  obtain ⟨r, hr, -⟩ := detect_report_shape.2.2 constDf30 (by decide)
  exact ⟨r, hr⟩

/-- Claim C3: an undefined (NaN) indicator cell read by the detector makes
every boolean predicate that reads it evaluate to false — never true, never
an error; and at the compute stage an incomplete rolling-mean window makes
the corresponding spike flag false. -/
theorem undefined_values_false :
    (∀ rows : List IndRow,
      ((lastRow rows).ema9 = none ∨ (lastRow rows).ema21 = none →
        (detectRows rows).ema_cross = false ∧ priceAboveB (lastRow rows) = false ∧
          (detectRows rows).signal = false) ∧
      ((prevRow rows).ema9 = none ∨ (prevRow rows).ema21 = none →
        (detectRows rows).ema_cross = false) ∧
      ((lastRow rows).rsi5 = none →
        rsiBurstB (lastRow rows) = false ∧ (detectRows rows).signal = false) ∧
      ((lastRow rows).vol_spike = false → (detectRows rows).signal = false) ∧
      ((lastRow rows).atr_spike = false → (detectRows rows).signal = false)) ∧
    (∀ df : List Candle, ∀ i, i < df.length →
      ((rollingMean 14 (atr df 14)).getD i none = none →
        ((compute_all df).getD i dummyRow).atr_spike = false) ∧
      ((rollingMean 10 (df.map Candle.volume)).getD i none = none →
        ((compute_all df).getD i dummyRow).vol_spike = false)) := by
  constructor
  · intro rows
    refine ⟨?_, ?_, ?_, ?_, ?_⟩
    · rintro (h | h) <;>
        simp [detectRows, signalB, emaCrossB, priceAboveB, h,
          gtO_none_left, gtO_none_right]
    · rintro (h | h) <;> simp [detectRows, emaCrossB, h, leO_none_left, leO_none_right]
    · intro h
      simp [detectRows, signalB, rsiBurstB, h, gtO_none_left]
    · intro h; simp [detectRows, signalB, h]
    · intro h; simp [detectRows, signalB, h]
  · intro df i h
    rw [compute_all_getD df i h]
    constructor
    · intro hb
      rw [List.getD_eq_getElem?_getD] at hb
      simp [mkRow, hb, omulC, gtO_none_right]
    · intro hb
      rw [List.getD_eq_getElem?_getD] at hb
      simp [mkRow, hb, omulC, gtO_none_right]

/-- Witness for C3 at concrete undefined rows and a 1-bar frame whose
rolling windows are incomplete. -/
theorem undefined_values_false_inst :
    (detectRows (List.replicate 30 dummyRow)).signal = false ∧
    ((compute_all [dummyCandle]).getD 0 dummyRow).atr_spike = false := by
  refine ⟨((undefined_values_false.1 (List.replicate 30 dummyRow)).2.2.1 ?_).2, ?_⟩
  · with_unfolding_all decide
  · exact (undefined_values_false.2 [dummyCandle] 0 (by decide)).1
      (by with_unfolding_all decide)

theorem lookupEntry_setEntry_self (es : List (String × TsValue)) (s : String) (v : TsValue) :
    lookupEntry (setEntry es s v) s = some v := by
  induction es with
  | nil => simp [setEntry, lookupEntry]
  | cons p rest ih =>
    obtain ⟨k, w⟩ := p
    by_cases hk : k = s
    · simp [setEntry, lookupEntry, hk]
    · simp [setEntry, lookupEntry, hk, ih]

/-- Claim C4: in the per-symbol body of run_check, for a symbol whose
signal is true and not suppressed by the cooldown, the dedup record is
written (persist_alert with the cycle's UTC time) iff send_telegram_message
returned True; on a False return or a raised send error the stored state is
left unchanged. -/
theorem persist_iff_delivered (env : Env) (f : FileState) (s : String)
    (df : List Candle) (r : Report)
    (hf : env.fetch s = .ok df)
    (hd : detect_momentum_signal (some df) = some r)
    (hs : r.signal = true)
    (hw : was_alert_sent_recent f env.now s env.cooldown = .ok false) :
    ∃ f2, processSymbol env f s = .ok (.sig s (some r), f2) ∧
      (env.send s = .returned true →
        f2 = persist_alert f s env.now ∧
        lookupEntry (readAll f2) s = some (.iso env.now)) ∧
      (env.send s ≠ .returned true → f2 = f) := by
  cases hsend : env.send s with
  | returned b =>
    cases b with
    | true =>
      refine ⟨persist_alert f s env.now, ?_, fun _ => ⟨rfl, ?_⟩, fun hcon => absurd rfl hcon⟩
      · simp [processSymbol, hf, hd, hs, hw, hsend]
      · simp [persist_alert, readAll, lookupEntry_setEntry_self]
    | false =>
      refine ⟨f, ?_, fun hcon => ?_, fun _ => rfl⟩
      · simp [processSymbol, hf, hd, hs, hw, hsend]
      · simp at hcon
  | raised m =>
    refine ⟨f, ?_, fun hcon => ?_, fun _ => rfl⟩
    · simp [processSymbol, hf, hd, hs, hw, hsend]
    · simp at hcon

/-- Environment with a successful fetch of the breakout series and a
delivery that returns True. -/
def envS : Env := ⟨fun _ => .ok sigDf, fun _ => .returned true, 0, 30⟩

/-- Witness for C4: on success the record for the symbol holds the cycle
time. -/
theorem persist_iff_delivered_inst :
    ∃ f2, processSymbol envS .absent "A" = .ok (.sig "A" (some sigReport), f2) ∧
      lookupEntry (readAll f2) "A" = some (.iso 0) := by
  obtain ⟨f2, h1, h2, -⟩ :=
    persist_iff_delivered envS .absent "A" sigDf sigReport rfl detect_sigDf rfl rfl
  exact ⟨f2, h1, (h2 rfl).2⟩

/-- Claim C5: with a well-formed stored record, was_alert_sent_recent is
true iff `now - stored ≤ minutes·60` (boundary inclusive); with no record
for the symbol it is false. -/
theorem cooldown_boundary :
    (∀ (es : List (String × TsValue)) (s : String) (t now m : ℚ),
      lookupEntry es s = some (.iso t) →
      ∃ b, was_alert_sent_recent (.valid es) now s m = .ok b ∧
        (b = true ↔ now - t ≤ m * 60)) ∧
    (∀ (es : List (String × TsValue)) (s : String) (now m : ℚ),
      lookupEntry es s = none →
      was_alert_sent_recent (.valid es) now s m = .ok false) := by
  constructor
  · intro es s t now m h
    refine ⟨decide (now - t ≤ m * 60), ?_, by simp⟩
    simp [was_alert_sent_recent, h]
  · intro es s now m h
    simp [was_alert_sent_recent, h]

/-- Witness for C5 at exactly the cooldown boundary: 1800 s elapsed with a
30-minute cooldown is still "recent". -/
theorem cooldown_boundary_inst :
    was_alert_sent_recent (.valid [("A", .iso 0)]) 1800 "A" 30 = .ok true := by
  obtain ⟨b, hb, hiff⟩ := cooldown_boundary.1 [("A", .iso 0)] "A" 0 1800 30 rfl
  have hbt : b = true := hiff.mpr (by norm_num)
  rw [hbt] at hb
  exact hb

/-- Counterexample for C6: storage whose contents are malformed in the
specific way of valid JSON holding a non-ISO timestamp string makes
was_alert_sent_recent raise (the `datetime.fromisoformat` call sits outside
the `try`), rather than return false. -/
theorem storage_bad_ts_raises :
    was_alert_sent_recent (.valid [("A", .bad "not-a-date")]) 0 "A" 30
      = .error "invalid isoformat string: not-a-date" := rfl

/-- Claim C6 as amended: a missing file, contents that fail JSON parsing,
or an absent symbol key all yield false without raising; but a valid-JSON
record whose timestamp string is not ISO-parseable raises a parse error
instead of returning false. -/
theorem storage_fail_open :
    (∀ (now m : ℚ) (s : String),
      was_alert_sent_recent .absent now s m = .ok false) ∧
    (∀ (now m : ℚ) (s : String),
      was_alert_sent_recent .invalidJson now s m = .ok false) ∧
    (∀ (es : List (String × TsValue)) (s : String) (now m : ℚ),
      lookupEntry es s = none → was_alert_sent_recent (.valid es) now s m = .ok false) ∧
    (∀ (es : List (String × TsValue)) (s b : String) (now m : ℚ),
      lookupEntry es s = some (.bad b) →
      was_alert_sent_recent (.valid es) now s m
        = .error ("invalid isoformat string: " ++ b)) := by
  refine ⟨fun _ _ _ => rfl, fun _ _ _ => rfl, ?_, ?_⟩
  · intro es s now m h
    simp [was_alert_sent_recent, h]
  · intro es s b now m h
    simp [was_alert_sent_recent, h]

/-- Witness for C6 (amended): an empty JSON object yields false. -/
theorem storage_fail_open_inst :
    was_alert_sent_recent (.valid []) 0 "A" 30 = .ok false :=
  storage_fail_open.2.2.1 [] "A" 0 30 rfl

/-- Claim C9: send_telegram_message raises iff a credential is missing or
empty — and then independently of any delivery outcome, i.e. before the
attempt; with non-empty credentials it never raises, returning True exactly
on HTTP 200 and False on any other status or transport exception. -/
theorem send_raises_iff_missing_creds (tok cid : Option String) (txt : String)
    (w : HttpOutcome) :
    ((tok.getD "" = "" ∨ cid.getD "" = "") ↔
      ∃ e, send_telegram_message tok cid txt w = .error e) ∧
    ((tok.getD "" = "" ∨ cid.getD "" = "") →
      ∀ w2, send_telegram_message tok cid txt w = send_telegram_message tok cid txt w2) ∧
    (¬(tok.getD "" = "" ∨ cid.getD "" = "") →
      ∃ b, send_telegram_message tok cid txt w = .ok b ∧ (b = true ↔ w = .status 200)) := by
  by_cases h : tok.getD "" = "" ∨ cid.getD "" = ""
  · refine ⟨⟨fun _ => ⟨"Provide bot_token and chat_id in config.", ?_⟩, fun _ => h⟩,
      fun _ w2 => ?_, fun hc => absurd h hc⟩
    · simp [send_telegram_message, h]
    · simp [send_telegram_message, h]
  · refine ⟨⟨fun hc => absurd hc h, ?_⟩, fun hc => absurd hc h, fun _ => ?_⟩
    · rintro ⟨e, he⟩
      simp [send_telegram_message, h] at he
    · cases w with
      | status code =>
        refine ⟨code == 200, by simp [send_telegram_message, h], ?_⟩
        simp
      | exn m =>
        exact ⟨false, by simp [send_telegram_message, h], by simp⟩

/-- Witness for C9: empty token raises; full credentials with HTTP 200
return True. -/
theorem send_raises_iff_missing_creds_inst :
    (∃ e, send_telegram_message none (some "c") "m" (.status 200) = .error e) ∧
    (∃ b, send_telegram_message (some "tok") (some "c") "m" (.status 200) = .ok b ∧
      (b = true ↔ HttpOutcome.status 200 = .status 200)) := by
  refine ⟨(send_raises_iff_missing_creds none (some "c") "m" (.status 200)).1.mp
      (Or.inl rfl), ?_⟩
  exact (send_raises_iff_missing_creds (some "tok") (some "c") "m" (.status 200)).2.2
    (by decide)

/-- Storage contents in which every stored value is ISO-parseable (what
persist_alert itself ever writes). -/
def fileWF : FileState → Prop
  | .valid es => ∀ p ∈ es, ∃ t, p.2 = TsValue.iso t
  | _ => True

theorem lookupEntry_mem (es : List (String × TsValue)) (s : String) (v : TsValue)
    (h : lookupEntry es s = some v) : ∃ k, (k, v) ∈ es := by
  induction es with
  | nil => simp [lookupEntry] at h
  | cons p rest ih =>
    obtain ⟨k, w⟩ := p
    by_cases hk : k = s
    · simp [lookupEntry, hk] at h
      exact ⟨k, by simp [h]⟩
    · simp [lookupEntry, hk] at h
      obtain ⟨k2, hk2⟩ := ih h
      exact ⟨k2, List.mem_cons_of_mem _ hk2⟩

theorem wasRecent_wf_ok (f : FileState) (now m : ℚ) (s : String) (wf : fileWF f) :
    ∃ b, was_alert_sent_recent f now s m = .ok b := by
  cases f with
  | absent => exact ⟨false, rfl⟩
  | invalidJson => exact ⟨false, rfl⟩
  | valid es =>
    cases hl : lookupEntry es s with
    | none => exact ⟨false, by simp [was_alert_sent_recent, hl]⟩
    | some v =>
      obtain ⟨k, hk⟩ := lookupEntry_mem es s v hl
      obtain ⟨t, ht⟩ := wf (k, v) hk
      simp only at ht
      subst ht
      exact ⟨decide (now - t ≤ m * 60), by simp [was_alert_sent_recent, hl]⟩

theorem setEntry_wf (es : List (String × TsValue))
    (hwf : ∀ p ∈ es, ∃ t, p.2 = TsValue.iso t) (s : String) (u : ℚ) :
    ∀ p ∈ setEntry es s (.iso u), ∃ t, p.2 = TsValue.iso t := by
  induction es with
  | nil =>
    intro p hp
    simp [setEntry] at hp
    subst hp
    exact ⟨u, rfl⟩
  | cons q rest ih =>
    obtain ⟨k, w⟩ := q
    intro p hp
    by_cases hk : k = s
    · simp [setEntry, hk] at hp
      rcases hp with hp | hp
      · subst hp; exact ⟨u, rfl⟩
      · exact hwf p (List.mem_cons_of_mem _ hp)
    · simp [setEntry, hk] at hp
      rcases hp with hp | hp
      · subst hp; exact hwf (k, w) (by simp)
      · exact ih (fun q hq => hwf q (List.mem_cons_of_mem _ hq)) p hp

theorem persist_wf (f : FileState) (wf : fileWF f) (s : String) (u : ℚ) :
    fileWF (persist_alert f s u) := by
  have hr : ∀ p ∈ readAll f, ∃ t, p.2 = TsValue.iso t := by
    cases f with
    | absent => simp [readAll]
    | invalidJson => simp [readAll]
    | valid es => exact wf
  exact setEntry_wf _ hr s u

theorem processSymbol_wf (env : Env) (f : FileState) (s : String) (wf : fileWF f) :
    ∃ e f2, processSymbol env f s = .ok (e, f2) ∧ fileWF f2 ∧ entrySym e = s ∧
      (∀ m, env.fetch s = .error m → e = .err s m) := by
  cases hf : env.fetch s with
  | error m =>
    refine ⟨.err s m, f, by simp [processSymbol, hf], wf, rfl, fun m2 hm2 => ?_⟩
    injection hm2 with hh
    rw [hh]
  | ok df =>
    have hfe : ∀ (e2 : Entry) (m : String),
        (Except.ok df : Except String (List Candle)) = .error m → e2 = .err s m := by
      intro e2 m hm
      simp at hm
    cases hd : detect_momentum_signal (some df) with
    | none =>
      exact ⟨.sig s none, f, by simp [processSymbol, hf, hd], wf, rfl, hfe _⟩
    | some r =>
      by_cases hs : r.signal = true
      · obtain ⟨b, hb⟩ := wasRecent_wf_ok f env.now env.cooldown s wf
        cases b with
        | true =>
          exact ⟨.sig s (some r), f,
            by simp [processSymbol, hf, hd, hs, hb], wf, rfl, hfe _⟩
        | false =>
          cases hsend : env.send s with
          | returned sb =>
            cases sb with
            | true =>
              exact ⟨.sig s (some r), persist_alert f s env.now,
                by simp [processSymbol, hf, hd, hs, hb, hsend],
                persist_wf f wf s env.now, rfl, hfe _⟩
            | false =>
              exact ⟨.sig s (some r), f,
                by simp [processSymbol, hf, hd, hs, hb, hsend], wf, rfl, hfe _⟩
          | raised m =>
            exact ⟨.sig s (some r), f,
              by simp [processSymbol, hf, hd, hs, hb, hsend], wf, rfl, hfe _⟩
      · have hs2 : r.signal = false := by simpa using hs
        exact ⟨.sig s (some r), f, by simp [processSymbol, hf, hd, hs2], wf, rfl, hfe _⟩

/-- Claim C7 as amended: provided the dedup storage holds only parseable
timestamps (which is all persist_alert ever writes), run_check returns one
entry per watched symbol in list order, a candle-fetch failure yields an
error entry for exactly that symbol, and no exception escapes.  (As stated
the claim is false: see the counterexample, where a stored unparseable
timestamp makes run_check itself raise.) -/
theorem run_check_one_entry_per_symbol (env : Env) (symbols : List String)
    (f : FileState) (wf : fileWF f) :
    ∃ es f2, run_check env symbols f = .ok (es, f2) ∧ fileWF f2 ∧
      es.map entrySym = symbols ∧
      (∀ i, i < symbols.length → ∀ m,
        env.fetch (symbols.getD i "") = .error m →
        es.getD i (.err "" "") = .err (symbols.getD i "") m) := by
  induction symbols generalizing f with
  | nil => exact ⟨[], f, rfl, wf, rfl, by intro i hi; simp at hi⟩
  | cons s ss ih =>
    obtain ⟨e, f2, hp, wf2, hsym, hfe⟩ := processSymbol_wf env f s wf
    obtain ⟨es, f3, hr, wf3, hmap, hidx⟩ := ih f2 wf2
    refine ⟨e :: es, f3, ?_, wf3, ?_, ?_⟩
    · simp [run_check, hp, hr]
    · simp [hmap, hsym]
    · intro i hi m hm
      cases i with
      | zero => exact hfe m hm
      | succ j => exact hidx j (by simpa using hi) m hm

/-- Environment in which every candle fetch fails. -/
def envDown : Env := ⟨fun _ => .error "down", fun _ => .raised "x", 0, 30⟩

/-- Witness for C7 (amended) on a concrete watch list with empty storage. -/
theorem run_check_one_entry_per_symbol_inst :
    ∃ es f2, run_check envDown ["A", "B"] .absent = .ok (es, f2) ∧
      es.map entrySym = ["A", "B"] := by
  obtain ⟨es, f2, h1, -, h3, -⟩ :=
    run_check_one_entry_per_symbol envDown ["A", "B"] .absent trivial
  exact ⟨es, f2, h1, h3⟩

/-- Counterexample for C7 as stated: with a fetch that succeeds, a signal
that fires, and storage mapping the symbol to an unparseable timestamp, an
exception escapes run_check and the batch produces no result entries at
all. -/
theorem run_check_raises_on_bad_storage :
    run_check envS ["A"] (.valid [("A", .bad "zz")])
      = .error "invalid isoformat string: zz" := by
  with_unfolding_all rfl

/- Lemmas about the exponential smoothing recurrence, for the RSI claim. -/

theorem ewmGo_nonneg (a : ℚ) (ha0 : 0 ≤ a) (ha1 : a ≤ 1) :
    ∀ (xs : List ℚ) (prev : ℚ), 0 ≤ prev → (∀ x ∈ xs, 0 ≤ x) →
      ∀ y ∈ ewmGo a prev xs, 0 ≤ y := by
  intro xs
  induction xs with
  | nil => intro prev _ _ y hy; simp [ewmGo] at hy
  | cons x rest ih =>
    intro prev hp hxs y hy
    have hx : 0 ≤ x := hxs x (by simp)
    have hstep : 0 ≤ (1 - a) * prev + a * x :=
      add_nonneg (mul_nonneg (by linarith) hp) (mul_nonneg ha0 hx)
    simp only [ewmGo, List.mem_cons] at hy
    rcases hy with hy | hy
    · exact hy ▸ hstep
    · exact ih _ hstep (fun z hz => hxs z (by simp [hz])) y hy

theorem ewm_nonneg (a : ℚ) (ha0 : 0 ≤ a) (ha1 : a ≤ 1) (xs : List ℚ)
    (hxs : ∀ x ∈ xs, 0 ≤ x) : ∀ y ∈ ewm a xs, 0 ≤ y := by
  cases xs with
  | nil => simp [ewm]
  | cons x rest =>
    intro y hy
    simp only [ewm, List.mem_cons] at hy
    rcases hy with hy | hy
    · exact hy ▸ hxs x (by simp)
    · exact ewmGo_nonneg a ha0 ha1 rest x (hxs x (by simp))
        (fun z hz => hxs z (by simp [hz])) y hy

theorem ewmGo_pos (a : ℚ) (ha0 : 0 < a) (ha1 : a < 1) :
    ∀ (xs : List ℚ) (prev : ℚ), 0 < prev → (∀ x ∈ xs, 0 < x) →
      ∀ y ∈ ewmGo a prev xs, 0 < y := by
  intro xs
  induction xs with
  | nil => intro prev _ _ y hy; simp [ewmGo] at hy
  | cons x rest ih =>
    intro prev hp hxs y hy
    have hx : 0 < x := hxs x (by simp)
    have hstep : 0 < (1 - a) * prev + a * x := by nlinarith
    simp only [ewmGo, List.mem_cons] at hy
    rcases hy with hy | hy
    · exact hy ▸ hstep
    · exact ih _ hstep (fun z hz => hxs z (by simp [hz])) y hy

theorem ewm_pos (a : ℚ) (ha0 : 0 < a) (ha1 : a < 1) (xs : List ℚ)
    (hxs : ∀ x ∈ xs, 0 < x) : ∀ y ∈ ewm a xs, 0 < y := by
  cases xs with
  | nil => simp [ewm]
  | cons x rest =>
    intro y hy
    simp only [ewm, List.mem_cons] at hy
    rcases hy with hy | hy
    · exact hy ▸ hxs x (by simp)
    · exact ewmGo_pos a ha0 ha1 rest x (hxs x (by simp))
        (fun z hz => hxs z (by simp [hz])) y hy

theorem ewmGo_zeros (a : ℚ) :
    ∀ (xs : List ℚ) (prev : ℚ), prev = 0 → (∀ x ∈ xs, x = 0) →
      ∀ y ∈ ewmGo a prev xs, y = 0 := by
  intro xs
  induction xs with
  | nil => intro prev _ _ y hy; simp [ewmGo] at hy
  | cons x rest ih =>
    intro prev hp hxs y hy
    have hx : x = 0 := hxs x (by simp)
    have hstep : (1 - a) * prev + a * x = 0 := by rw [hp, hx]; ring
    simp only [ewmGo, List.mem_cons] at hy
    rcases hy with hy | hy
    · exact hy ▸ hstep
    · exact ih _ hstep (fun z hz => hxs z (by simp [hz])) y hy

theorem ewm_zeros (a : ℚ) (xs : List ℚ) (hxs : ∀ x ∈ xs, x = 0) :
    ∀ y ∈ ewm a xs, y = 0 := by
  cases xs with
  | nil => simp [ewm]
  | cons x rest =>
    intro y hy
    simp only [ewm, List.mem_cons] at hy
    rcases hy with hy | hy
    · exact hy ▸ hxs x (by simp)
    · exact ewmGo_zeros a rest x (hxs x (by simp))
        (fun z hz => hxs z (by simp [hz])) y hy

theorem rsiPoint_bound (u d v : ℚ) (hu : 0 ≤ u) (hd : 0 ≤ d)
    (h : rsiPoint u d = some v) : 0 ≤ v ∧ v ≤ 100 := by
  unfold rsiPoint at h
  by_cases hd0 : d = 0
  · rw [if_pos hd0] at h
    by_cases hu0 : u = 0
    · rw [if_pos hu0] at h; simp at h
    · rw [if_neg hu0] at h
      have hv : (100 : ℚ) = v := by simpa using h
      constructor <;> linarith
  · rw [if_neg hd0] at h
    have hdpos : 0 < d := lt_of_le_of_ne hd (Ne.symm hd0)
    have hrs : 0 ≤ u / d := div_nonneg hu hd
    have h1 : (0 : ℚ) < 1 + u / d := by linarith
    have hle : 100 / (1 + u / d) ≤ 100 := div_le_self (by norm_num) (by linarith)
    have hpos : 0 < 100 / (1 + u / d) := div_pos (by norm_num) h1
    have hv : 100 - 100 / (1 + u / d) = v := by simpa using h
    constructor <;> linarith

theorem zipWith_rsiPoint_bound :
    ∀ us ds : List ℚ, (∀ u ∈ us, 0 ≤ u) → (∀ d ∈ ds, 0 ≤ d) →
      ∀ v : ℚ, some v ∈ List.zipWith rsiPoint us ds → 0 ≤ v ∧ v ≤ 100 := by
  intro us
  induction us with
  | nil => intro ds _ _ v hv; simp at hv
  | cons u rest ih =>
    intro ds hus hds v hv
    cases ds with
    | nil => simp at hv
    | cons d dtail =>
      simp only [List.zipWith_cons_cons, List.mem_cons] at hv
      rcases hv with hv | hv
      · exact rsiPoint_bound u d v (hus u (by simp)) (hds d (by simp)) hv.symm
      · exact ih dtail (fun z hz => hus z (by simp [hz]))
          (fun z hz => hds z (by simp [hz])) v hv

theorem zipWith_rsiPoint_100 :
    ∀ us ds : List ℚ, (∀ u ∈ us, 0 < u) → (∀ d ∈ ds, d = 0) →
      ∀ o ∈ List.zipWith rsiPoint us ds, o = some 100 := by
  intro us
  induction us with
  | nil => intro ds _ _ o ho; simp at ho
  | cons u rest ih =>
    intro ds hus hds o ho
    cases ds with
    | nil => simp at ho
    | cons d dtail =>
      simp only [List.zipWith_cons_cons, List.mem_cons] at ho
      rcases ho with ho | ho
      · have hu : 0 < u := hus u (by simp)
        have hd : d = 0 := hds d (by simp)
        rw [ho]
        simp [rsiPoint, hd, ne_of_gt hu]
      · exact ih dtail (fun z hz => hus z (by simp [hz]))
          (fun z hz => hds z (by simp [hz])) o ho

theorem one_div_nat_nonneg (n : ℕ) : 0 ≤ (1 : ℚ) / (n : ℚ) := by positivity

theorem one_div_nat_le_one (n : ℕ) : (1 : ℚ) / (n : ℚ) ≤ 1 := by
  cases n with
  | zero => norm_num
  | succ k =>
    apply div_le_one_of_le₀
    · exact_mod_cast Nat.succ_le_succ (Nat.zero_le k)
    · positivity

theorem rsi_mem_bound (xs : List ℚ) (len : ℕ) (v : ℚ)
    (h : some v ∈ rsi xs len) : 0 ≤ v ∧ v ≤ 100 := by
  cases xs with
  | nil => simp [rsi] at h
  | cons x rest =>
    simp only [rsi, List.mem_cons] at h
    rcases h with h | h
    · simp at h
    · apply zipWith_rsiPoint_bound _ _ ?_ ?_ v h
      · apply ewm_nonneg _ (one_div_nat_nonneg len) (one_div_nat_le_one len)
        intro z hz
        simp only [List.mem_map] at hz
        obtain ⟨w, -, hw⟩ := hz
        exact hw ▸ le_max_right w 0
      · apply ewm_nonneg _ (one_div_nat_nonneg len) (one_div_nat_le_one len)
        intro z hz
        simp only [List.mem_map] at hz
        obtain ⟨w, -, hw⟩ := hz
        exact hw ▸ le_max_right (-w) 0

theorem chain'_diffs_pos :
    ∀ xs : List ℚ, List.Chain' (fun a b => a < b) xs → ∀ d ∈ diffs xs, 0 < d := by
  intro xs
  induction xs with
  | nil => intro _ d hd; simp [diffs] at hd
  | cons x rest ih =>
    intro h d hd
    cases rest with
    | nil => simp [diffs] at hd
    | cons y tail =>
      rw [List.chain'_cons] at h
      simp only [diffs, List.tail_cons, List.zipWith_cons_cons, List.mem_cons] at hd
      rcases hd with hd | hd
      · rw [hd]; linarith [h.1]
      · exact ih h.2 d (by simpa [diffs] using hd)

theorem rsi_increasing_100 (xs : List ℚ)
    (h : List.Chain' (fun a b => a < b) xs) :
    ∀ o ∈ (rsi xs 5).tail, o = some 100 := by
  cases xs with
  | nil => simp [rsi]
  | cons x rest =>
    intro o ho
    simp only [rsi, List.tail_cons] at ho
    apply zipWith_rsiPoint_100 _ _ ?_ ?_ o ho
    · apply ewm_pos _ (by norm_num) (by norm_num)
      intro z hz
      simp only [List.mem_map] at hz
      obtain ⟨w, hw1, hw2⟩ := hz
      have hwp : 0 < w := chain'_diffs_pos (x :: rest) h w hw1
      exact hw2 ▸ lt_of_lt_of_le hwp (le_max_left w 0)
    · apply ewm_zeros
      intro z hz
      simp only [List.mem_map] at hz
      obtain ⟨w, hw1, hw2⟩ := hz
      have hwp : 0 < w := chain'_diffs_pos (x :: rest) h w hw1
      rw [← hw2]
      exact max_eq_right (by linarith)

/-- Claim C8: every defined value of the rsi output lies in [0,100]; a zero
smoothed down-move with a positive smoothed up-move yields exactly 100
(division by zero is a defined case); and a strictly increasing close
series yields rsi = 100 at every bar after warm-up (index ≥ 1). -/
theorem rsi_bounds :
    (∀ (xs : List ℚ) (len : ℕ) (v : ℚ), some v ∈ rsi xs len → 0 ≤ v ∧ v ≤ 100) ∧
    (∀ u d : ℚ, d = 0 → 0 < u → rsiPoint u d = some 100) ∧
    (∀ xs : List ℚ, List.Chain' (fun a b => a < b) xs →
      ∀ o ∈ (rsi xs 5).tail, o = some 100) := by
  refine ⟨rsi_mem_bound, ?_, rsi_increasing_100⟩
  intro u d hd hu
  simp [rsiPoint, hd, ne_of_gt hu]

/-- Witness for C8: a defined mid-range value (80) is in bounds, the
zero-loss point case returns 100, and the strictly increasing series
[0,1,2] has rsi = 100 at both post-warm-up bars. -/
theorem rsi_bounds_inst :
    ((0 : ℚ) ≤ 80 ∧ (80 : ℚ) ≤ 100) ∧ rsiPoint 1 0 = some 100 ∧
      some (100 : ℚ) = some 100 := by
  refine ⟨rsi_bounds.1 [0, 1, 0] 5 80 ?_, rsi_bounds.2.1 1 0 rfl one_pos,
    rsi_bounds.2.2 [0, 1, 2] ?_ (some 100) ?_⟩
  · with_unfolding_all decide
  · norm_num [List.chain'_cons]
  · with_unfolding_all decide

/- Heap lemmas for the copy claim. -/

theorem getD_append_left {α : Type} (l t : List α) (i : ℕ) (h : i < l.length) (d : α) :
    (l ++ t).getD i d = l.getD i d := by
  simp [List.getD_eq_getElem?_getD, List.getElem?_append_left h]

theorem getD_set_ne {α : Type} (l : List α) (i j : ℕ) (hij : i ≠ j) (x : α) (d : α) :
    (l.set i x).getD j d = l.getD j d := by
  simp [List.getD_eq_getElem?_getD, List.getElem?_set_ne hij]

/-- All seven column writes of compute_all_heap go to the fresh reference
`h.length`, so any pre-existing heap cell is untouched — whichever frame
was passed in. -/
theorem compute_all_heap_getD (h : List PFrame) (r2 r : ℕ) (hr : r < h.length) :
    (compute_all_heap h r2).1.getD r dummyPF = h.getD r dummyPF := by
  have hne : h.length ≠ r := fun he => absurd (he ▸ hr) (lt_irrefl _)
  simp only [compute_all_heap, writeCol]
  rw [getD_set_ne _ _ _ hne, getD_set_ne _ _ _ hne, getD_set_ne _ _ _ hne,
    getD_set_ne _ _ _ hne, getD_set_ne _ _ _ hne, getD_set_ne _ _ _ hne,
    getD_set_ne _ _ _ hne, getD_append_left _ _ _ hr]

/-- Claim C10: compute_all operates on a copy (`df = df.copy()`), so the
caller's DataFrame gains no indicator columns and keeps every cell; the
detector as a whole likewise leaves every pre-existing frame unchanged. -/
theorem compute_all_copies (h : List PFrame) (r : ℕ) (hr : r < h.length) :
    (compute_all_heap h r).2 = h.length ∧
    r ≠ (compute_all_heap h r).2 ∧
    (compute_all_heap h r).1.getD r dummyPF = h.getD r dummyPF ∧
    (∀ df? : Option ℕ, (detect_heap h df?).1.getD r dummyPF = h.getD r dummyPF) := by
  refine ⟨rfl, fun he => absurd (he ▸ hr) (lt_irrefl _),
    compute_all_heap_getD h r r hr, ?_⟩
  intro df?
  cases df? with
  | none => rfl
  | some r2 =>
    simp only [detect_heap]
    split
    · rfl
    · exact compute_all_heap_getD h r2 r hr

/-- Witness for C10 on a one-frame heap: the copy gets a fresh reference
and the caller's frame is unchanged. -/
theorem compute_all_copies_inst :
    (compute_all_heap [dummyPF] 0).2 = 1 ∧
    (compute_all_heap [dummyPF] 0).1.getD 0 dummyPF = [dummyPF].getD 0 dummyPF := by
  obtain ⟨h1, -, h3, -⟩ := compute_all_copies [dummyPF] 0 (by decide)
  exact ⟨h1, h3⟩

end OptionMomentum
